import Mathlib

/-!
# Verification of the PerCom blog-post store and handler layer

Shallow embedding of `src/python/app/{models,schemas,storage,main}.py`.

* `PostModel` embeds the dataclass `PostModel` (models.py); the `datetime`
  field is embedded as an `Int` timeline instant.
* The Python `dict` backing `PostStorage._posts` is embedded as an
  association list with Python-dict semantics: assignment to an existing
  key replaces its value in place, assignment to a fresh key appends,
  `pop` removes the entry for the key.
* `str(uuid4())` is a fresh, collision-free identifier generator; its
  randomness is not representable, so it is modelled as a deterministic
  supply of pairwise-distinct identifier strings indexed by a counter
  carried in the state (`genId`).
* The handler layer (main.py) together with the framework's request-body
  validation of `PostInput` (schemas.py) is embedded by `handle_*`
  functions over a raw JSON-ish body type.
-/

namespace PerCom

/-- models.py `PostModel`: id, author, date, content. -/
structure PostModel where
  id : String
  author : String
  date : Int
  content : String
deriving DecidableEq, Repr

/-- Python `dict.get(k)`: value stored under `k`, if any. -/
def dictGet (l : List (String × PostModel)) (k : String) : Option PostModel :=
  match l with
  | [] => none
  | (k', v) :: rest => if k' = k then some v else dictGet rest k

/-- Python `d[k] = v`: replace in place when `k` is present, else append. -/
def dictInsert (l : List (String × PostModel)) (k : String) (v : PostModel) :
    List (String × PostModel) :=
  match l with
  | [] => [(k, v)]
  | (k', v') :: rest =>
    if k' = k then (k, v) :: rest else (k', v') :: dictInsert rest k v

/-- Python `d.pop(k, None)`: the removed value (if any) and the remaining dict. -/
def dictPop (l : List (String × PostModel)) (k : String) :
    Option PostModel × List (String × PostModel) :=
  match l with
  | [] => (none, [])
  | (k', v) :: rest =>
    if k' = k then (some v, rest)
    else
      let r := dictPop rest k
      (r.1, (k', v) :: r.2)

/-- `str(uuid4())` in `create_post`: a fresh identifier, collision-free for
the life of the process.  Modelled as the n-th string of a deterministic
supply of pairwise-distinct identifiers, where `n` is a counter carried in
the storage state. -/
def genId (n : Nat) : String := String.mk (List.replicate (n + 1) 'u')

/-- storage.py `PostStorage`: the dict `_posts` plus the state of the
identifier supply (`nextId` indexes the next fresh id from `genId`). -/
structure PostStorage where
  posts : List (String × PostModel)
  nextId : Nat
deriving Repr

/-- storage.py `storage = PostStorage()`: the freshly constructed store. -/
def initStorage : PostStorage := ⟨[], 0⟩

/-- `list_posts`: `list(self._posts.values())`. -/
def list_posts (s : PostStorage) : List PostModel := s.posts.map Prod.snd

/-- `get_post`: `self._posts.get(post_id)`. -/
def get_post (s : PostStorage) (post_id : String) : Option PostModel :=
  dictGet s.posts post_id

/-- `create_post`: generate a fresh id, build the post, store it, return it. -/
def create_post (s : PostStorage) (author : String) (date : Int)
    (content : String) : PostStorage × PostModel :=
  let new_id := genId s.nextId
  let post : PostModel := ⟨new_id, author, date, content⟩
  (⟨dictInsert s.posts new_id post, s.nextId + 1⟩, post)

/-- `update_post`: `None` when `post_id not in self._posts`; otherwise build
the replacement post, store it under the same key, return it. -/
def update_post (s : PostStorage) (post_id : String) (author : String)
    (date : Int) (content : String) : PostStorage × Option PostModel :=
  if (dictGet s.posts post_id).isNone then (s, none)
  else
    let post : PostModel := ⟨post_id, author, date, content⟩
    (⟨dictInsert s.posts post_id post, s.nextId⟩, some post)

/-- `delete_post`: `self._posts.pop(post_id, None) is not None`. -/
def delete_post (s : PostStorage) (post_id : String) : PostStorage × Bool :=
  let r := dictPop s.posts post_id
  (⟨r.2, s.nextId⟩, r.1.isSome)

/-! ## Handler layer (main.py) with request-body validation (schemas.py) -/

/-- A JSON-ish field value of an inbound request body. -/
inductive Value where
  | str (s : String)
  | num (n : Int)
  | null
deriving DecidableEq, Repr

/-- An inbound request body for Create/Update: each field may be missing. -/
structure RawBody where
  author : Option Value
  date : Option Value
  content : Option Value
deriving DecidableEq, Repr

/-- schemas.py `PostInput`: the validated body `{author, date, content}`. -/
structure PostInput where
  author : String
  date : Int
  content : String
deriving DecidableEq, Repr

/-- Decimal reading of a non-empty all-digit character list; `none`
otherwise. -/
def parseDigits (cs : List Char) : Option Nat :=
  if cs ≠ [] ∧ cs.all Char.isDigit then
    some (cs.foldl (fun acc c => acc * 10 + (c.toNat - 48)) 0)
  else none

/-- Modelled from the spec: the timestamp coercion used to validate the
`date: datetime` field lives in the validation library, outside this
repository; the spec only requires that the date "must be parseable from
input" and that an "unparseable timestamp" is `InvalidInput`.  We model it
as accepting integer values and digit-only strings (epoch seconds) and
rejecting everything else. -/
def parseTimestamp : Value → Option Int
  | .num n => some n
  | .str s => (parseDigits s.data).map Int.ofNat
  | .null => none

/-- Structural validation of a request body against `PostInput`
(schemas.py): all three fields required, `author`/`content` must be text,
`date` must parse as a timestamp. -/
def parsePostInput (b : RawBody) : Option PostInput :=
  match b.author, b.date, b.content with
  | some (.str a), some dv, some (.str c) =>
    match parseTimestamp dv with
    | some d => some ⟨a, d, c⟩
    | none => none
  | _, _, _ => none

/-- The observable outcome of one handled request. -/
inductive HOut where
  | ok (p : PostModel)
  | okList (ps : List PostModel)
  | deleted
  | notFound
  | invalidInput
deriving DecidableEq, Repr

/-- main.py `list_posts` route: always returns the listing. -/
def handle_list (s : PostStorage) : PostStorage × HOut :=
  (s, .okList (list_posts s))

/-- main.py `create_post` route: the framework validates the body against
`PostInput` before the handler runs; the handler calls the store. -/
def handle_create (s : PostStorage) (body : RawBody) : PostStorage × HOut :=
  match parsePostInput body with
  | none => (s, .invalidInput)
  | some inp =>
    let r := create_post s inp.author inp.date inp.content
    (r.1, .ok r.2)

/-- main.py `get_post` route: 404 when the store returns `None`. -/
def handle_get (s : PostStorage) (post_id : String) : PostStorage × HOut :=
  match get_post s post_id with
  | none => (s, .notFound)
  | some p => (s, .ok p)

/-- main.py `update_post` route: the framework validates the body against
`PostInput` before the handler runs; 404 when the store returns `None`. -/
def handle_update (s : PostStorage) (post_id : String) (body : RawBody) :
    PostStorage × HOut :=
  match parsePostInput body with
  | none => (s, .invalidInput)
  | some inp =>
    let r := update_post s post_id inp.author inp.date inp.content
    match r.2 with
    | none => (r.1, .notFound)
    | some p => (r.1, .ok p)

/-- main.py `delete_post` route: 404 when the store returns `False`. -/
def handle_delete (s : PostStorage) (post_id : String) : PostStorage × HOut :=
  let r := delete_post s post_id
  if r.2 then (r.1, .deleted) else (r.1, .notFound)

/-! ## Trace semantics: finite sequences of store operations -/

/-- One store operation of a trace. -/
inductive Op where
  | create (author : String) (date : Int) (content : String)
  | update (post_id : String) (author : String) (date : Int) (content : String)
  | delete (post_id : String)
  | read (post_id : String)
  | listAll
deriving DecidableEq, Repr

/-- The state reached after one operation. -/
def applyOp (s : PostStorage) : Op → PostStorage
  | .create a d c => (create_post s a d c).1
  | .update pid a d c => (update_post s pid a d c).1
  | .delete pid => (delete_post s pid).1
  | .read _ => s
  | .listAll => s

/-- The state reached after a sequence of operations. -/
def runOps (s : PostStorage) : List Op → PostStorage
  | [] => s
  | op :: rest => runOps (applyOp s op) rest

/-- The ids carried by the Posts returned by the Create calls of a trace. -/
def createdIds (s : PostStorage) : List Op → List String
  | [] => []
  | op :: rest =>
    match op with
    | .create a d c => (create_post s a d c).2.id :: createdIds (applyOp s op) rest
    | _ => createdIds (applyOp s op) rest

/-- The ids whose Delete call succeeded during a trace. -/
def deletedIds (s : PostStorage) : List Op → List String
  | [] => []
  | op :: rest =>
    match op with
    | .delete pid =>
      if (delete_post s pid).2 then pid :: deletedIds (applyOp s op) rest
      else deletedIds (applyOp s op) rest
    | _ => deletedIds (applyOp s op) rest

/-- The keys of the store's dict. -/
def storeKeys (s : PostStorage) : List String := s.posts.map Prod.fst

/-- The storage invariant: keys are pairwise distinct, every record is
stored under its own id, and every key comes from the already-consumed
part of the identifier supply. -/
def Inv (s : PostStorage) : Prop :=
  (storeKeys s).Nodup ∧
    ∀ kp ∈ s.posts, kp.2.id = kp.1 ∧ ∃ k, k < s.nextId ∧ kp.1 = genId k

/-! ## Dictionary lemmas -/

theorem dictGet_dictInsert_self (l : List (String × PostModel)) (k : String)
    (v : PostModel) : dictGet (dictInsert l k v) k = some v := by
  induction l with
  | nil => simp [dictInsert, dictGet]
  | cons hd tl ih =>
    obtain ⟨k', v'⟩ := hd
    by_cases hk : k' = k
    · simp [dictInsert, dictGet, hk]
    · simp [dictInsert, dictGet, hk, ih]

theorem dictGet_dictInsert_ne (l : List (String × PostModel)) (k : String)
    (v : PostModel) (j : String) (h : j ≠ k) :
    dictGet (dictInsert l k v) j = dictGet l j := by
  induction l with
  | nil => simp [dictInsert, dictGet, Ne.symm h]
  | cons hd tl ih =>
    obtain ⟨k', v'⟩ := hd
    by_cases hk : k' = k
    · subst hk
      simp [dictInsert, dictGet, Ne.symm h]
    · by_cases hj : k' = j
      · subst hj
        simp [dictInsert, dictGet, hk]
      · simp [dictInsert, dictGet, hk, hj, ih]

theorem keys_dictInsert (l : List (String × PostModel)) (k : String)
    (v : PostModel) :
    (dictInsert l k v).map Prod.fst =
      if k ∈ l.map Prod.fst then l.map Prod.fst else l.map Prod.fst ++ [k] := by
  induction l with
  | nil => simp [dictInsert]
  | cons hd tl ih =>
    obtain ⟨k', v'⟩ := hd
    by_cases hk : k' = k
    · subst hk
      simp [dictInsert]
    · have hne : ¬ k = k' := fun e => hk e.symm
      by_cases hmem : k ∈ tl.map Prod.fst
      · simp [dictInsert, hk, hmem, hne, ih]
      · simp [dictInsert, hk, hmem, hne, ih]

theorem mem_of_mem_dictInsert (l : List (String × PostModel)) (k : String)
    (v : PostModel) (kp : String × PostModel) (h : kp ∈ dictInsert l k v) :
    kp = (k, v) ∨ kp ∈ l := by
  induction l with
  | nil => simpa [dictInsert] using h
  | cons hd tl ih =>
    obtain ⟨k', v'⟩ := hd
    by_cases hk : k' = k
    · simp [dictInsert, hk] at h
      rcases h with h | h
      · exact Or.inl h
      · exact Or.inr (List.mem_cons_of_mem _ h)
    · simp [dictInsert, hk] at h
      rcases h with h | h
      · exact Or.inr (by simp [h])
      · rcases ih h with h' | h'
        · exact Or.inl h'
        · exact Or.inr (List.mem_cons_of_mem _ h')

theorem dictPop_fst (l : List (String × PostModel)) (k : String) :
    (dictPop l k).1 = dictGet l k := by
  induction l with
  | nil => simp [dictPop, dictGet]
  | cons hd tl ih =>
    obtain ⟨k', v'⟩ := hd
    by_cases hk : k' = k
    · simp [dictPop, dictGet, hk]
    · simp [dictPop, dictGet, hk, ih]

theorem keys_dictPop (l : List (String × PostModel)) (k : String) :
    ((dictPop l k).2).map Prod.fst = (l.map Prod.fst).erase k := by
  induction l with
  | nil => simp [dictPop]
  | cons hd tl ih =>
    obtain ⟨k', v'⟩ := hd
    by_cases hk : k' = k
    · subst hk
      simp [dictPop, List.erase_cons]
    · simp [dictPop, List.erase_cons, hk, ih]

theorem mem_of_mem_dictPop (l : List (String × PostModel)) (k : String)
    (kp : String × PostModel) (h : kp ∈ (dictPop l k).2) : kp ∈ l := by
  induction l with
  | nil => simp [dictPop] at h
  | cons hd tl ih =>
    obtain ⟨k', v'⟩ := hd
    by_cases hk : k' = k
    · simp [dictPop, hk] at h
      exact List.mem_cons_of_mem _ h
    · simp [dictPop, hk] at h
      rcases h with h | h
      · simp [h]
      · exact List.mem_cons_of_mem _ (ih h)

theorem dictGet_dictPop_ne (l : List (String × PostModel)) (k : String)
    (j : String) (h : j ≠ k) : dictGet (dictPop l k).2 j = dictGet l j := by
  induction l with
  | nil => simp [dictPop, dictGet]
  | cons hd tl ih =>
    obtain ⟨k', v'⟩ := hd
    by_cases hk : k' = k
    · subst hk
      simp [dictPop, dictGet, Ne.symm h]
    · by_cases hj : k' = j
      · subst hj
        simp [dictPop, dictGet, hk]
      · simp [dictPop, dictGet, hk, hj, ih]

theorem dictGet_eq_none_iff (l : List (String × PostModel)) (k : String) :
    dictGet l k = none ↔ k ∉ l.map Prod.fst := by
  induction l with
  | nil => simp [dictGet]
  | cons hd tl ih =>
    obtain ⟨k', v'⟩ := hd
    by_cases hk : k' = k
    · simp [dictGet, hk]
    · simp [dictGet, hk, ih, Ne.symm hk]

theorem dictGet_of_mem (l : List (String × PostModel)) (k : String)
    (p : PostModel) (nd : (l.map Prod.fst).Nodup) (h : (k, p) ∈ l) :
    dictGet l k = some p := by
  induction l with
  | nil => simp at h
  | cons hd tl ih =>
    obtain ⟨k', v'⟩ := hd
    simp at nd
    rcases List.mem_cons.mp h with h | h
    · obtain ⟨h1, h2⟩ := Prod.mk.injEq .. ▸ h.symm
      simp [dictGet, h1.symm, h2]
    · have hk : k' ≠ k := by
        intro e
        subst e
        exact nd.1 p (by simpa using h)
      simp [dictGet, hk, ih nd.2 h]

theorem mem_of_dictGet (l : List (String × PostModel)) (k : String)
    (p : PostModel) (h : dictGet l k = some p) : (k, p) ∈ l := by
  induction l with
  | nil => simp [dictGet] at h
  | cons hd tl ih =>
    obtain ⟨k', v'⟩ := hd
    by_cases hk : k' = k
    · simp [dictGet, hk] at h
      simp [hk, h]
    · simp [dictGet, hk] at h
      exact List.mem_cons_of_mem _ (ih h)

theorem genId_injective : Function.Injective genId := by
  intro a b h
  have := congrArg (fun s => s.data.length) h
  simpa [genId] using this

theorem mem_keys_dictInsert (l : List (String × PostModel)) (k : String)
    (v : PostModel) (z : String) :
    z ∈ (dictInsert l k v).map Prod.fst ↔ z = k ∨ z ∈ l.map Prod.fst := by
  rw [keys_dictInsert]
  by_cases hm : k ∈ l.map Prod.fst
  · simp only [hm, if_pos]
    constructor
    · exact Or.inr
    · rintro (rfl | h)
      · exact hm
      · exact h
  · simp only [hm, if_neg, not_false_iff, List.mem_append, List.mem_singleton]
    tauto

theorem dictPop_not_mem (l : List (String × PostModel)) (k : String)
    (h : k ∉ l.map Prod.fst) : dictPop l k = (none, l) := by
  induction l with
  | nil => simp [dictPop]
  | cons hd tl ih =>
    obtain ⟨k', v'⟩ := hd
    simp only [List.map_cons, List.mem_cons, not_or] at h
    have hne : ¬ k' = k := fun e => h.1 e.symm
    simp [dictPop, hne, ih h.2]

theorem delete_post_snd_iff (s : PostStorage) (pid : String) :
    (delete_post s pid).2 = true ↔ pid ∈ storeKeys s := by
  have hb : (delete_post s pid).2 = (dictGet s.posts pid).isSome := by
    simp [delete_post, dictPop_fst]
  rw [hb, Option.isSome_iff_exists]
  constructor
  · rintro ⟨p, hp⟩
    exact List.mem_map.mpr ⟨(pid, p), mem_of_dictGet _ _ _ hp, rfl⟩
  · intro hm
    cases hg : dictGet s.posts pid with
    | none => exact absurd hm ((dictGet_eq_none_iff _ _).mp hg)
    | some p => exact ⟨p, rfl⟩

/-! ## Invariant preservation and trace lemmas -/

theorem Inv_initStorage : Inv initStorage := by
  constructor
  · simp [storeKeys, initStorage]
  · intro kp h
    simp [initStorage] at h

theorem key_genId_lt (s : PostStorage) (h : Inv s) (pid : String)
    (hm : pid ∈ storeKeys s) : ∃ k, k < s.nextId ∧ pid = genId k := by
  rcases List.mem_map.mp hm with ⟨kp, hkp, hfst⟩
  rcases (h.2 kp hkp).2 with ⟨k, hk, he⟩
  exact ⟨k, hk, hfst ▸ he⟩

theorem newId_not_mem (s : PostStorage) (h : Inv s) :
    genId s.nextId ∉ storeKeys s := by
  intro hm
  rcases key_genId_lt s h _ hm with ⟨k, hk, he⟩
  exact absurd (genId_injective he).symm (Nat.ne_of_lt hk)

theorem nextId_le_applyOp (s : PostStorage) (op : Op) :
    s.nextId ≤ (applyOp s op).nextId := by
  cases op with
  | create a d c => exact Nat.le_succ _
  | update pid a d c =>
    by_cases hn : (dictGet s.posts pid).isNone <;>
      simp [applyOp, update_post, hn]
  | delete pid => exact le_refl _
  | read pid => exact le_refl _
  | listAll => exact le_refl _

theorem Inv_applyOp (s : PostStorage) (op : Op) (h : Inv s) :
    Inv (applyOp s op) := by
  obtain ⟨hnd, hent⟩ := h
  cases op with
  | create a d c =>
    have hnm : genId s.nextId ∉ List.map Prod.fst s.posts :=
      newId_not_mem s ⟨hnd, hent⟩
    refine ⟨?_, ?_⟩
    · show ((dictInsert s.posts (genId s.nextId)
        ⟨genId s.nextId, a, d, c⟩).map Prod.fst).Nodup
      rw [keys_dictInsert, if_neg hnm]
      refine List.Nodup.append hnd (List.nodup_singleton _) ?_
      intro x hx hsing
      rw [List.mem_singleton] at hsing
      exact hnm (hsing ▸ hx)
    · intro kp hkp
      have hkp' : kp ∈ dictInsert s.posts (genId s.nextId)
          ⟨genId s.nextId, a, d, c⟩ := hkp
      rcases mem_of_mem_dictInsert _ _ _ _ hkp' with rfl | hmem
      · exact ⟨rfl, s.nextId, Nat.lt_succ_self _, rfl⟩
      · rcases hent kp hmem with ⟨hid, k, hk, he⟩
        exact ⟨hid, k, Nat.lt_succ_of_lt hk, he⟩
  | update pid a d c =>
    by_cases hn : (dictGet s.posts pid).isNone
    · have happ : applyOp s (.update pid a d c) = s := by
        simp [applyOp, update_post, hn]
      rw [happ]
      exact ⟨hnd, hent⟩
    · have hsome : ∃ p, dictGet s.posts pid = some p := by
        cases hg : dictGet s.posts pid with
        | none => exact absurd (by simp [hg]) hn
        | some p => exact ⟨p, rfl⟩
      rcases hsome with ⟨p, hp⟩
      have hpid : pid ∈ List.map Prod.fst s.posts :=
        List.mem_map.mpr ⟨(pid, p), mem_of_dictGet _ _ _ hp, rfl⟩
      have happ : applyOp s (.update pid a d c) =
          ⟨dictInsert s.posts pid ⟨pid, a, d, c⟩, s.nextId⟩ := by
        simp [applyOp, update_post, hn]
      rw [happ]
      refine ⟨?_, ?_⟩
      · show ((dictInsert s.posts pid ⟨pid, a, d, c⟩).map Prod.fst).Nodup
        rw [keys_dictInsert, if_pos hpid]
        exact hnd
      · intro kp hkp
        have hkp' : kp ∈ dictInsert s.posts pid ⟨pid, a, d, c⟩ := hkp
        rcases mem_of_mem_dictInsert _ _ _ _ hkp' with rfl | hmem
        · rcases key_genId_lt s ⟨hnd, hent⟩ pid hpid with ⟨k, hk, he⟩
          exact ⟨rfl, k, hk, he⟩
        · rcases hent kp hmem with ⟨hid, k, hk, he⟩
          exact ⟨hid, k, hk, he⟩
  | delete pid =>
    refine ⟨?_, ?_⟩
    · show (((dictPop s.posts pid).2).map Prod.fst).Nodup
      rw [keys_dictPop]
      exact hnd.erase pid
    · intro kp hkp
      have hkp' : kp ∈ (dictPop s.posts pid).2 := hkp
      rcases hent kp (mem_of_mem_dictPop _ _ _ hkp') with ⟨hid, k, hk, he⟩
      exact ⟨hid, k, hk, he⟩
  | read pid => exact ⟨hnd, hent⟩
  | listAll => exact ⟨hnd, hent⟩

theorem Inv_runOps (ops : List Op) (s : PostStorage) (h : Inv s) :
    Inv (runOps s ops) := by
  induction ops generalizing s with
  | nil => exact h
  | cons op rest ih => exact ih (applyOp s op) (Inv_applyOp s op h)

theorem createdIds_fresh (ops : List Op) (s : PostStorage) :
    ∀ x ∈ createdIds s ops, ∃ k, s.nextId ≤ k ∧ x = genId k := by
  induction ops generalizing s with
  | nil => simp [createdIds]
  | cons op rest ih =>
    intro x hx
    cases op with
    | create a d c =>
      simp only [createdIds, List.mem_cons] at hx
      rcases hx with rfl | hx
      · exact ⟨s.nextId, le_refl _, rfl⟩
      · rcases ih (applyOp s (.create a d c)) x hx with ⟨k, hk, he⟩
        exact ⟨k, le_trans (nextId_le_applyOp s _) hk, he⟩
    | update pid a d c =>
      rcases ih _ x hx with ⟨k, hk, he⟩
      exact ⟨k, le_trans (nextId_le_applyOp s _) hk, he⟩
    | delete pid =>
      rcases ih _ x hx with ⟨k, hk, he⟩
      exact ⟨k, le_trans (nextId_le_applyOp s _) hk, he⟩
    | read pid =>
      rcases ih _ x hx with ⟨k, hk, he⟩
      exact ⟨k, le_trans (nextId_le_applyOp s _) hk, he⟩
    | listAll =>
      rcases ih _ x hx with ⟨k, hk, he⟩
      exact ⟨k, le_trans (nextId_le_applyOp s _) hk, he⟩

theorem mem_keys_create (s : PostStorage) (a : String) (d : Int) (c : String)
    (z : String) : z ∈ storeKeys (create_post s a d c).1 ↔
      z = genId s.nextId ∨ z ∈ storeKeys s :=
  mem_keys_dictInsert s.posts (genId s.nextId) ⟨genId s.nextId, a, d, c⟩ z

theorem mem_keys_update (s : PostStorage) (pid : String) (a : String) (d : Int)
    (c : String) (z : String) :
    z ∈ storeKeys (update_post s pid a d c).1 ↔ z ∈ storeKeys s := by
  by_cases hn : (dictGet s.posts pid).isNone
  · simp [update_post, hn]
  · have hsome : ∃ p, dictGet s.posts pid = some p := by
      cases hg : dictGet s.posts pid with
      | none => exact absurd (by simp [hg]) hn
      | some p => exact ⟨p, rfl⟩
    rcases hsome with ⟨p, hp⟩
    have hpid : pid ∈ storeKeys s :=
      List.mem_map.mpr ⟨(pid, p), mem_of_dictGet _ _ _ hp, rfl⟩
    have h1 : (update_post s pid a d c).1 =
        ⟨dictInsert s.posts pid ⟨pid, a, d, c⟩, s.nextId⟩ := by
      simp [update_post, hn]
    rw [h1]
    have h2 := mem_keys_dictInsert s.posts pid ⟨pid, a, d, c⟩ z
    constructor
    · intro hz
      rcases h2.mp hz with rfl | hz'
      · exact hpid
      · exact hz'
    · intro hz
      exact h2.mpr (Or.inr hz)

theorem mem_keys_delete (s : PostStorage) (pid : String) (z : String)
    (hnd : (storeKeys s).Nodup) :
    z ∈ storeKeys (delete_post s pid).1 ↔ z ∈ storeKeys s ∧ z ≠ pid := by
  have h1 : storeKeys (delete_post s pid).1 =
      ((dictPop s.posts pid).2).map Prod.fst := rfl
  rw [h1, keys_dictPop]
  constructor
  · intro hz
    have := hnd.mem_erase_iff.mp hz
    exact ⟨this.2, this.1⟩
  · intro hz
    exact hnd.mem_erase_iff.mpr ⟨hz.2, hz.1⟩

theorem old_id_not_created (ops : List Op) (s : PostStorage) (j : Nat)
    (hj : j < s.nextId) : genId j ∉ createdIds s ops := by
  intro hc
  rcases createdIds_fresh ops s _ hc with ⟨k, hk, he⟩
  have hjk : j = k := genId_injective he
  omega

theorem createdIds_nodup (ops : List Op) (s : PostStorage) :
    (createdIds s ops).Nodup := by
  induction ops generalizing s with
  | nil => simp [createdIds]
  | cons op rest ih =>
    cases op with
    | create a d c =>
      show ((create_post s a d c).2.id ::
        createdIds (applyOp s (.create a d c)) rest).Nodup
      rw [List.nodup_cons]
      refine ⟨?_, ih _⟩
      have hid : (create_post s a d c).2.id = genId s.nextId := rfl
      rw [hid]
      exact old_id_not_created rest (applyOp s (.create a d c)) s.nextId
        (Nat.lt_succ_self _)
    | update pid a d c => exact ih _
    | delete pid => exact ih _
    | read pid => exact ih _
    | listAll => exact ih _

theorem mem_keys_runOps (ops : List Op) (s : PostStorage) (h : Inv s)
    (x : String) :
    x ∈ storeKeys (runOps s ops) ↔
      ((x ∈ storeKeys s ∨ x ∈ createdIds s ops) ∧ x ∉ deletedIds s ops) := by
  induction ops generalizing s with
  | nil => simp [runOps, createdIds, deletedIds]
  | cons op rest ih =>
    have ih' := ih (applyOp s op) (Inv_applyOp s op h)
    cases op with
    | create a d c =>
      show x ∈ storeKeys (runOps (applyOp s (.create a d c)) rest) ↔
        ((x ∈ storeKeys s ∨
            x ∈ (create_post s a d c).2.id ::
              createdIds (applyOp s (.create a d c)) rest) ∧
          x ∉ deletedIds (applyOp s (.create a d c)) rest)
      rw [ih']
      have hid : (create_post s a d c).2.id = genId s.nextId := rfl
      rw [hid]
      have hk : x ∈ storeKeys (applyOp s (.create a d c)) ↔
          x = genId s.nextId ∨ x ∈ storeKeys s := mem_keys_create s a d c x
      rw [List.mem_cons]
      tauto
    | update pid a d c =>
      show x ∈ storeKeys (runOps (applyOp s (.update pid a d c)) rest) ↔
        ((x ∈ storeKeys s ∨
            x ∈ createdIds (applyOp s (.update pid a d c)) rest) ∧
          x ∉ deletedIds (applyOp s (.update pid a d c)) rest)
      rw [ih']
      have hk : x ∈ storeKeys (applyOp s (.update pid a d c)) ↔
          x ∈ storeKeys s := mem_keys_update s pid a d c x
      tauto
    | delete pid =>
      by_cases hb : (delete_post s pid).2
      · have hpid : pid ∈ storeKeys s := (delete_post_snd_iff s pid).mp hb
        show x ∈ storeKeys (runOps (applyOp s (.delete pid)) rest) ↔
          ((x ∈ storeKeys s ∨
              x ∈ createdIds (applyOp s (.delete pid)) rest) ∧
            x ∉ (if (delete_post s pid).2 then
                pid :: deletedIds (applyOp s (.delete pid)) rest
              else deletedIds (applyOp s (.delete pid)) rest))
        rw [if_pos hb, ih']
        have hk : x ∈ storeKeys (applyOp s (.delete pid)) ↔
            x ∈ storeKeys s ∧ x ≠ pid := mem_keys_delete s pid x h.1
        by_cases hx : x = pid
        · subst hx
          rcases key_genId_lt s h x hpid with ⟨j, hj, he⟩
          have hnc : x ∉ createdIds (applyOp s (.delete x)) rest := by
            rw [he]
            exact old_id_not_created rest (applyOp s (.delete (genId j))) j hj
          simp only [List.mem_cons]
          tauto
        · simp only [List.mem_cons]
          tauto
      · have hnpid : pid ∉ storeKeys s := fun hm =>
          hb ((delete_post_snd_iff s pid).mpr hm)
        have hpop : dictPop s.posts pid = (none, s.posts) :=
          dictPop_not_mem s.posts pid hnpid
        have hs' : applyOp s (.delete pid) = s := by
          show (⟨(dictPop s.posts pid).2, s.nextId⟩ : PostStorage) = s
          rw [hpop]
        show x ∈ storeKeys (runOps (applyOp s (.delete pid)) rest) ↔
          ((x ∈ storeKeys s ∨
              x ∈ createdIds (applyOp s (.delete pid)) rest) ∧
            x ∉ (if (delete_post s pid).2 then
                pid :: deletedIds (applyOp s (.delete pid)) rest
              else deletedIds (applyOp s (.delete pid)) rest))
        rw [if_neg hb, ih', hs']
    | read pid => exact ih'
    | listAll => exact ih'

theorem listIds_eq_keys (s : PostStorage) (h : Inv s) :
    (list_posts s).map PostModel.id = storeKeys s := by
  show (s.posts.map Prod.snd).map PostModel.id = s.posts.map Prod.fst
  rw [List.map_map]
  exact List.map_congr_left (fun kp hkp => (h.2 kp hkp).1)

/-! ## Claims -/

/-- C1: Round-trip — for every (author, date, content), performing Create and
then Read on the id of the returned Post yields a Post equal to the created
one (same id, author, date, content). -/
theorem C1_create_read_roundtrip (s : PostStorage) (author : String)
    (date : Int) (content : String) :
    get_post (create_post s author date content).1
        (create_post s author date content).2.id =
      some (create_post s author date content).2 := by
  show dictGet (dictInsert s.posts (genId s.nextId)
      ⟨genId s.nextId, author, date, content⟩) (genId s.nextId) =
    some ⟨genId s.nextId, author, date, content⟩
  exact dictGet_dictInsert_self s.posts (genId s.nextId) _

/-- Closed instance of C1 at a concrete input. -/
theorem C1_create_read_roundtrip_witness :
    get_post (create_post initStorage "Alice" 0 "hello").1
        (create_post initStorage "Alice" 0 "hello").2.id =
      some (create_post initStorage "Alice" 0 "hello").2 :=
  C1_create_read_roundtrip initStorage "Alice" 0 "hello"

/-- C2: Update preserves identity and replaces fields wholesale — for every
id present in the store before the call, Update(id, a2, d2, c2) returns a
Post whose id is id and whose author, date and content are exactly a2, d2,
c2 (no merge with the prior record), and the stored record afterwards is
that same Post. -/
theorem C2_update_preserves_identity (s : PostStorage) (pid : String)
    (a2 : String) (d2 : Int) (c2 : String) (h : pid ∈ storeKeys s) :
    (update_post s pid a2 d2 c2).2 = some ⟨pid, a2, d2, c2⟩ ∧
    get_post (update_post s pid a2 d2 c2).1 pid = some ⟨pid, a2, d2, c2⟩ := by
  have hn : ¬ (dictGet s.posts pid).isNone = true := by
    rw [Option.isNone_iff_eq_none]
    intro he
    exact (dictGet_eq_none_iff _ _).mp he h
  constructor
  · simp [update_post, hn]
  · have h1 : (update_post s pid a2 d2 c2).1 =
        ⟨dictInsert s.posts pid ⟨pid, a2, d2, c2⟩, s.nextId⟩ := by
      simp [update_post, hn]
    rw [h1]
    exact dictGet_dictInsert_self s.posts pid _

/-- Closed instance of C2 at a concrete pre-existing id. -/
theorem C2_update_preserves_identity_witness :
    (update_post (create_post initStorage "Alice" 0 "hello").1
        (genId 0) "Bob" 1 "bye").2 = some ⟨genId 0, "Bob", 1, "bye"⟩ ∧
    get_post (update_post (create_post initStorage "Alice" 0 "hello").1
        (genId 0) "Bob" 1 "bye").1 (genId 0) = some ⟨genId 0, "Bob", 1, "bye"⟩ :=
  C2_update_preserves_identity (create_post initStorage "Alice" 0 "hello").1
    (genId 0) "Bob" 1 "bye" (by decide)

/-- C3: Delete is terminal — after Delete(id) succeeds (on a store with
pairwise-distinct keys, as every reachable store has), a subsequent Read(id)
returns absent and the handler signals NotFound, a subsequent
Update(id, ...) returns absent with the state untouched and the handler
signals NotFound on any well-formed body, and a second Delete(id) returns
false and the handler signals NotFound. -/
theorem C3_delete_terminal (s : PostStorage) (pid : String) (a : String)
    (d : Int) (c : String) (body : RawBody) (inp : PostInput)
    (hnd : (storeKeys s).Nodup) (hdel : (delete_post s pid).2 = true)
    (hparse : parsePostInput body = some inp) :
    get_post (delete_post s pid).1 pid = none ∧
    update_post (delete_post s pid).1 pid a d c = ((delete_post s pid).1, none) ∧
    (delete_post (delete_post s pid).1 pid).2 = false ∧
    handle_get (delete_post s pid).1 pid = ((delete_post s pid).1, .notFound) ∧
    handle_update (delete_post s pid).1 pid body =
      ((delete_post s pid).1, .notFound) ∧
    handle_delete (delete_post s pid).1 pid =
      ((delete_post s pid).1, .notFound) := by
  have hpid : pid ∈ storeKeys s := (delete_post_snd_iff s pid).mp hdel
  have hkeys : storeKeys (delete_post s pid).1 = (storeKeys s).erase pid :=
    keys_dictPop s.posts pid
  have hnm : pid ∉ storeKeys (delete_post s pid).1 := by
    rw [hkeys]
    exact hnd.not_mem_erase
  have hget : get_post (delete_post s pid).1 pid = none :=
    (dictGet_eq_none_iff _ _).mpr hnm
  have hisn : ((dictGet (delete_post s pid).1.posts pid).isNone : Prop) := by
    rw [Option.isNone_iff_eq_none]
    exact hget
  have hupd : ∀ a' : String, ∀ d' : Int, ∀ c' : String,
      update_post (delete_post s pid).1 pid a' d' c' =
        ((delete_post s pid).1, none) := by
    intro a' d' c'
    simp [update_post, hisn]
  have hpop : dictPop (delete_post s pid).1.posts pid =
      (none, (delete_post s pid).1.posts) :=
    dictPop_not_mem _ pid hnm
  have hdel2 : (delete_post (delete_post s pid).1 pid).2 = false := by
    have hr : (delete_post (delete_post s pid).1 pid).2 =
        (dictPop (delete_post s pid).1.posts pid).1.isSome := rfl
    rw [hr, hpop]
    rfl
  refine ⟨hget, hupd a d c, hdel2, ?_, ?_, ?_⟩
  · simp [handle_get, hget]
  · rw [handle_update, hparse]
    simp [hupd]
  · rw [handle_delete]
    simp only [hdel2, if_neg, Bool.false_eq_true, not_false_iff]
    have : (delete_post (delete_post s pid).1 pid).1 = (delete_post s pid).1 := by
      show (⟨(dictPop (delete_post s pid).1.posts pid).2, _⟩ : PostStorage) = _
      rw [hpop]
    rw [this]

/-- Closed instance of C3: create one post, delete it, observe that read,
update and a second delete all fail. -/
theorem C3_delete_terminal_witness :
    get_post (delete_post (create_post initStorage "Alice" 0 "hi").1
        (genId 0)).1 (genId 0) = none ∧
    update_post (delete_post (create_post initStorage "Alice" 0 "hi").1
        (genId 0)).1 (genId 0) "Bob" 1 "bye" =
      ((delete_post (create_post initStorage "Alice" 0 "hi").1 (genId 0)).1,
        none) ∧
    (delete_post (delete_post (create_post initStorage "Alice" 0 "hi").1
        (genId 0)).1 (genId 0)).2 = false ∧
    handle_get (delete_post (create_post initStorage "Alice" 0 "hi").1
        (genId 0)).1 (genId 0) =
      ((delete_post (create_post initStorage "Alice" 0 "hi").1 (genId 0)).1,
        .notFound) ∧
    handle_update (delete_post (create_post initStorage "Alice" 0 "hi").1
        (genId 0)).1 (genId 0)
        ⟨some (.str "Bob"), some (.num 1), some (.str "bye")⟩ =
      ((delete_post (create_post initStorage "Alice" 0 "hi").1 (genId 0)).1,
        .notFound) ∧
    handle_delete (delete_post (create_post initStorage "Alice" 0 "hi").1
        (genId 0)).1 (genId 0) =
      ((delete_post (create_post initStorage "Alice" 0 "hi").1 (genId 0)).1,
        .notFound) :=
  C3_delete_terminal (create_post initStorage "Alice" 0 "hi").1 (genId 0)
    "Bob" 1 "bye" ⟨some (.str "Bob"), some (.num 1), some (.str "bye")⟩
    ⟨"Bob", 1, "bye"⟩ (by decide) (by decide) (by decide)

/-- C4: List completeness — after any finite sequence of operations starting
from the fresh store, an id appears among the ids returned by List exactly
when it was returned by a successful Create of the sequence and was not
successfully Deleted afterwards, regardless of the order of the calls. -/
theorem C4_list_completeness (ops : List Op) (x : String) :
    x ∈ (list_posts (runOps initStorage ops)).map PostModel.id ↔
      (x ∈ createdIds initStorage ops ∧ x ∉ deletedIds initStorage ops) := by
  rw [listIds_eq_keys _ (Inv_runOps ops initStorage Inv_initStorage)]
  rw [mem_keys_runOps ops initStorage Inv_initStorage x]
  have hinit : x ∉ storeKeys initStorage := by simp [storeKeys, initStorage]
  tauto

/-- Closed instance of C4: after one Create, the created id is listed. -/
theorem C4_list_completeness_witness :
    genId 0 ∈ (list_posts (runOps initStorage
      [Op.create "Alice" 0 "hello", Op.delete (genId 1)])).map PostModel.id :=
  (C4_list_completeness [Op.create "Alice" 0 "hello", Op.delete (genId 1)]
    (genId 0)).mpr (by decide)

/-- C5: Uniqueness — over any finite sequence of operations starting from
the fresh store, no two Posts returned by Create calls share an id; in
particular an id is never generated again later in the trace, even after
the record carrying it has been deleted. -/
theorem C5_unique_ids (ops : List Op) :
    (createdIds initStorage ops).Nodup :=
  createdIds_nodup ops initStorage

/-- Closed instance of C5 on a create–delete–create trace. -/
theorem C5_unique_ids_witness :
    (createdIds initStorage [Op.create "Alice" 0 "a",
      Op.delete (genId 0), Op.create "Bob" 1 "b"]).Nodup :=
  C5_unique_ids [Op.create "Alice" 0 "a", Op.delete (genId 0),
    Op.create "Bob" 1 "b"]

/-- C6: No upsert on Update — for an id not present in the store,
update_post returns absent and leaves the state exactly as it was (no
record is created), and the handler surfaces NotFound for any well-formed
body carrying those fields. -/
theorem C6_no_upsert (s : PostStorage) (pid : String) (a : String) (d : Int)
    (c : String) (body : RawBody) (inp : PostInput)
    (habs : get_post s pid = none)
    (hparse : parsePostInput body = some inp) :
    update_post s pid a d c = (s, none) ∧
    handle_update s pid body = (s, .notFound) := by
  have hisn : (dictGet s.posts pid).isNone = true := by
    rw [Option.isNone_iff_eq_none]
    exact habs
  have hupd : ∀ a' : String, ∀ d' : Int, ∀ c' : String,
      update_post s pid a' d' c' = (s, none) := by
    intro a' d' c'
    simp [update_post, hisn]
  refine ⟨hupd a d c, ?_⟩
  rw [handle_update, hparse]
  simp [hupd]

/-- Closed instance of C6: updating a never-created id on the fresh store. -/
theorem C6_no_upsert_witness :
    update_post initStorage "nosuch" "Bob" 1 "bye" = (initStorage, none) ∧
    handle_update initStorage "nosuch"
        ⟨some (.str "Bob"), some (.num 1), some (.str "bye")⟩ =
      (initStorage, .notFound) :=
  C6_no_upsert initStorage "nosuch" "Bob" 1 "bye"
    ⟨some (.str "Bob"), some (.num 1), some (.str "bye")⟩
    ⟨"Bob", 1, "bye"⟩ (by decide) (by decide)

/-- C7: Update validates input before the existence check — for every
request body that fails structural validation, the Update handler answers
InvalidInput whatever the target id is (present or absent), and the store
state is returned untouched: the store is never consulted. -/
theorem C7_validation_before_existence (s : PostStorage) (pid : String)
    (body : RawBody) (hbad : parsePostInput body = none) :
    handle_update s pid body = (s, .invalidInput) := by
  rw [handle_update, hbad]

/-- Closed instance of C7: an unparseable timestamp is rejected with
InvalidInput even though the target id does not exist. -/
theorem C7_validation_before_existence_witness :
    handle_update initStorage "nosuch"
        ⟨some (.str "Bob"), some (.str "not-a-date"), some (.str "bye")⟩ =
      (initStorage, .invalidInput) :=
  C7_validation_before_existence initStorage "nosuch"
    ⟨some (.str "Bob"), some (.str "not-a-date"), some (.str "bye")⟩
    (by decide)

/-- C8: Per-key frame — each mutation touches only its own identifier key:
for any id different from the one the mutation acts on, the record read
under that id is unchanged by Create, Update and Delete; and in every
reachable store state at most one record exists per id (the key list is
pairwise distinct). -/
theorem C8_per_key_frame (s : PostStorage) (a : String) (d : Int) (c : String)
    (pid : String) (j : String) (ops : List Op) :
    (j ≠ (create_post s a d c).2.id →
      get_post (create_post s a d c).1 j = get_post s j) ∧
    (j ≠ pid → get_post (update_post s pid a d c).1 j = get_post s j) ∧
    (j ≠ pid → get_post (delete_post s pid).1 j = get_post s j) ∧
    (storeKeys (runOps initStorage ops)).Nodup := by
  refine ⟨?_, ?_, ?_, (Inv_runOps ops initStorage Inv_initStorage).1⟩
  · intro hj
    exact dictGet_dictInsert_ne s.posts (genId s.nextId) _ j hj
  · intro hj
    by_cases hn : (dictGet s.posts pid).isNone
    · simp [get_post, update_post, hn]
    · have h1 : (update_post s pid a d c).1 =
          ⟨dictInsert s.posts pid ⟨pid, a, d, c⟩, s.nextId⟩ := by
        simp [update_post, hn]
      rw [get_post, h1]
      exact dictGet_dictInsert_ne s.posts pid _ j hj
  · intro hj
    exact dictGet_dictPop_ne s.posts pid j hj

/-- Closed instance of C8 at concrete distinct ids. -/
theorem C8_per_key_frame_witness :
    (get_post (create_post initStorage "Alice" 0 "hi").1 "other" =
      get_post initStorage "other") ∧
    (get_post (update_post initStorage "key" "Alice" 0 "hi").1 "other" =
      get_post initStorage "other") ∧
    (get_post (delete_post initStorage "key").1 "other" =
      get_post initStorage "other") ∧
    (storeKeys (runOps initStorage [Op.create "Alice" 0 "hi"])).Nodup := by
  have h := C8_per_key_frame initStorage "Alice" 0 "hi" "key" "other"
    [Op.create "Alice" 0 "hi"]
  exact ⟨h.1 (by decide), h.2.1 (by decide), h.2.2.1 (by decide), h.2.2.2⟩

/-- C9 counterexample: the claim "every stored Post has a non-empty author"
is false — creating a post with the empty-string author succeeds (the body
passes structural validation) and the resulting reachable store holds a
Post whose author is `""`. -/
theorem C9_author_nonempty_counterexample :
    parsePostInput ⟨some (.str ""), some (.num 0), some (.str "hello")⟩ =
      some ⟨"", 0, "hello"⟩ ∧
    ∃ p ∈ list_posts (runOps initStorage [Op.create "" 0 "hello"]),
      p.author = "" := by
  refine ⟨rfl, ⟨genId 0, "", 0, "hello"⟩, ?_, rfl⟩
  decide

/-- C9 (amended): author is shape-validated only — any string author
(including the empty one) passes validation, and every Create stores the
author text exactly as supplied, so the stored author need not be
non-empty. -/
theorem C9_author_shape_only (s : PostStorage) (a : String) (d : Int)
    (c : String) :
    parsePostInput ⟨some (.str a), some (.num d), some (.str c)⟩ =
      some ⟨a, d, c⟩ ∧
    (create_post s a d c).2.author = a ∧
    get_post (create_post s a d c).1 (create_post s a d c).2.id =
      some ⟨genId s.nextId, a, d, c⟩ := by
  refine ⟨rfl, rfl, ?_⟩
  show dictGet (dictInsert s.posts (genId s.nextId)
      ⟨genId s.nextId, a, d, c⟩) (genId s.nextId) =
    some ⟨genId s.nextId, a, d, c⟩
  exact dictGet_dictInsert_self s.posts (genId s.nextId) _

/-- C10: List/get consistency — in every reachable store state, List
returns exactly one Post per stored identifier (pairwise-distinct ids and
as many Posts as stored keys), and reading the id of any listed Post
returns that very Post. -/
theorem C10_list_get_consistency (ops : List Op) :
    ((list_posts (runOps initStorage ops)).map PostModel.id).Nodup ∧
    (list_posts (runOps initStorage ops)).length =
      (storeKeys (runOps initStorage ops)).length ∧
    ∀ p ∈ list_posts (runOps initStorage ops),
      get_post (runOps initStorage ops) p.id = some p := by
  have hInv := Inv_runOps ops initStorage Inv_initStorage
  refine ⟨?_, ?_, ?_⟩
  · rw [listIds_eq_keys _ hInv]
    exact hInv.1
  · simp [list_posts, storeKeys]
  · intro p hp
    rcases List.mem_map.mp hp with ⟨kp, hkp, hsnd⟩
    have hid : p.id = kp.1 := by
      rw [← hsnd]
      exact (hInv.2 kp hkp).1
    have hmem : (kp.1, p) ∈ (runOps initStorage ops).posts := by
      rw [← hsnd]
      exact hkp
    rw [get_post, hid]
    exact dictGet_of_mem _ kp.1 p hInv.1 hmem

/-- Closed instance of C10: reading back the single listed post. -/
theorem C10_list_get_consistency_witness :
    get_post (runOps initStorage [Op.create "Alice" 0 "hi"]) (genId 0) =
      some ⟨genId 0, "Alice", 0, "hi"⟩ :=
  (C10_list_get_consistency [Op.create "Alice" 0 "hi"]).2.2
    ⟨genId 0, "Alice", 0, "hi"⟩ (by decide)

end PerCom
